import Mathlib

/-!
# Verification of the membuf buffer primitive

A shallow embedding of the membuf crate: the raw typed allocation routines
(`src/alloc.rs`), the copyable shared handle `MemBuf` (`src/lib.rs`) and the
owning handle `UniqueBuf` (`src/unique.rs`).

Modelling choices:

* `usize` values are natural numbers; `checked_mul` overflows when the
  product reaches `2 ^ 64` (a 64-bit platform).
* The host allocator (`std::rt::heap`) is out of scope for the crate and is
  modelled as an explicit state: a list of live blocks (address, byte size,
  byte contents, where `none` is an uninitialized byte), a fresh-address
  counter, and a log of every host-allocator call.  An oracle boolean `ok`
  passed to each operation decides whether the host call returns null,
  capturing out-of-memory nondeterminism.
* Panics (`expect("Capacity overflow")`, `alloc::oom()`) are modelled as
  `Except.error` carrying a `Fault` together with the state visible to the
  unwinder at the panic point.  The crate's functions themselves never
  return a recoverable `Result`; the `Except` layer is the model of the
  panic, not of a return value.
* Element types are represented by their size `sz` and alignment `align`
  in bytes; an element value is its byte representation, a list of `sz`
  abstract bytes (`List β`).  Raw pointer reads and writes
  (`ptr::read` / `ptr::write` through the `Deref` impl) act on the block's
  contents at element offsets.
-/

deriving instance DecidableEq for Except

namespace Membuf

/-- `2 ^ 64`: one more than the largest `usize` value of the platform. -/
def usizeSize : Nat := 2 ^ 64

/-- The sentinel address `heap::EMPTY`: a fixed non-null address that is
never a real allocation and never dereferenced. -/
def EMPTY : Nat := 1

/-- The two fatal fault kinds of the allocation layer: capacity overflow
(`expect("Capacity overflow")`) and out of memory (`alloc::oom()`). -/
inductive Fault where
  | capacityOverflow
  | oom
deriving DecidableEq

/-- One host-allocator call, as recorded in the heap's event log. -/
inductive Event where
  | alloc (size align : Nat)
  | realloc (oldSize newSize align : Nat)
  | free (addr size align : Nat)
deriving DecidableEq

/-- One live host allocation: an address, a byte size and the byte
contents (`none` is an uninitialized byte). -/
structure Block (β : Type) where
  addr : Nat
  size : Nat
  data : List (Option β)
deriving DecidableEq

/-- The host allocator's state: the live blocks, a counter supplying fresh
addresses (always beyond `EMPTY`), and the log of host-allocator calls. -/
structure Heap (β : Type) where
  blocks : List (Block β)
  next : Nat
  events : List Event
deriving DecidableEq

variable {β : Type}

/-- The live block at address `p`, when one exists. -/
def Heap.findBlock (h : Heap β) (p : Nat) : Option (Block β) :=
  h.blocks.find? (fun blk => blk.addr == p)

/-- Host `allocate(size, align)`: on success a fresh block filled with
uninitialized bytes; on failure (oracle `ok = false`) a null return.  The
call is logged either way. -/
def Heap.hostAlloc (h : Heap β) (size align : Nat) (ok : Bool) :
    Option Nat × Heap β :=
  if ok then
    (some h.next,
      { blocks := ⟨h.next, size, List.replicate size none⟩ :: h.blocks
        next := h.next + size + 1
        events := h.events ++ [.alloc size align] })
  else
    (none, { h with events := h.events ++ [.alloc size align] })

/-- Truncate or pad (with uninitialized bytes) block contents to `n`
bytes: the host's grow/shrink preserves `min(old, new)` bytes. -/
def resizeData (n : Nat) (l : List (Option β)) : List (Option β) :=
  l.take n ++ List.replicate (n - l.length) none

/-- Host `reallocate(ptr, old_size, new_size, align)`: moves the block at
`ptr` to a fresh address, preserving `min(old_size, new_size)` bytes; a
null return when the oracle reports failure.  The call is logged either
way. -/
def Heap.hostRealloc (h : Heap β) (p oldSize newSize align : Nat) (ok : Bool) :
    Option Nat × Heap β :=
  match h.findBlock p, ok with
  | some blk, true =>
    (some h.next,
      { blocks := ⟨h.next, newSize, resizeData newSize blk.data⟩
          :: h.blocks.filter (fun b => b.addr != p)
        next := h.next + newSize + 1
        events := h.events ++ [.realloc oldSize newSize align] })
  | _, _ =>
    (none, { h with events := h.events ++ [.realloc oldSize newSize align] })

/-- Host `deallocate(ptr, size, align)`: removes the block at `ptr` and
logs the free. -/
def Heap.hostFree (h : Heap β) (p size align : Nat) : Heap β :=
  { blocks := h.blocks.filter (fun b => b.addr != p)
    next := h.next
    events := h.events ++ [.free p size align] }

/-- Overwrite `bytes.length` bytes of `l` starting at byte offset `off`. -/
def overwrite (l : List (Option β)) (off : Nat) (bytes : List β) :
    List (Option β) :=
  l.take off ++ bytes.map some ++ l.drop (off + bytes.length)

/-- Write `bytes` into block `blk` at byte offset `off`. -/
def Block.write (blk : Block β) (off : Nat) (bytes : List β) : Block β :=
  { blk with data := overwrite blk.data off bytes }

/-- Raw memory write at address `p`, byte offset `off`: a direct memory
access, not a host-allocator call (nothing is logged). -/
def Heap.writeBytes (h : Heap β) (p off : Nat) (bytes : List β) : Heap β :=
  { h with blocks :=
      h.blocks.map (fun b => if b.addr == p then b.write off bytes else b) }

/-- Raw memory read of `len` bytes at address `p`, byte offset `off`. -/
def Heap.readBytes (h : Heap β) (p off len : Nat) :
    Option (List (Option β)) :=
  match h.findBlock p with
  | some blk =>
    if off + len ≤ blk.size then some ((blk.data.drop off).take len)
    else none
  | none => none

/-- `usize::checked_mul`: `none` when the product does not fit a `usize`. -/
def checked_mul (a b : Nat) : Option Nat :=
  if a * b < usizeSize then some (a * b) else none

namespace alloc

/-- `alloc::empty::<T>()`: the `heap::EMPTY` sentinel as a `*mut T`. -/
def empty : Nat := EMPTY

/-- `allocation_size::<T>(cap)`:
`mem::size_of::<T>().checked_mul(*cap).expect("Capacity overflow")`. -/
def allocation_size (sz cap : Nat) : Except Fault Nat :=
  match checked_mul sz cap with
  | some s => .ok s
  | none => .error .capacityOverflow

/-- `unchecked_allocation_size::<T>(cap)`: `mem::size_of::<T>() * (*cap)`,
an unchecked (wrapping) `usize` multiplication. -/
def unchecked_allocation_size (sz cap : Nat) : Nat :=
  sz * cap % usizeSize

/-- `alloc::allocate::<T>(cap)`: zero-sized `T` short-circuits to the
sentinel; otherwise the checked size is computed, the host allocator is
called, and a null return raises the out-of-memory fault. -/
def allocate (sz align cap : Nat) (h : Heap β) (ok : Bool) :
    Except (Fault × Heap β) (Nat × Heap β) :=
  if sz = 0 then .ok (empty, h)
  else
    match allocation_size sz cap with
    | .error f => .error (f, h)
    | .ok size =>
      match h.hostAlloc size align ok with
      | (some p, h') => .ok (p, h')
      | (none, h') => .error (.oom, h')

/-- `alloc::reallocate::<T>(ptr, old_cap, new_cap)`: zero-sized `T`
short-circuits to the sentinel; otherwise `old_size` is computed without
an overflow check, `new_size` with one, and the host grow/shrink is
called; a null return raises the out-of-memory fault. -/
def reallocate (sz align p old_cap new_cap : Nat) (h : Heap β) (ok : Bool) :
    Except (Fault × Heap β) (Nat × Heap β) :=
  if sz = 0 then .ok (empty, h)
  else
    let old_size := unchecked_allocation_size sz old_cap
    match allocation_size sz new_cap with
    | .error f => .error (f, h)
    | .ok new_size =>
      match h.hostRealloc p old_size new_size align ok with
      | (some q, h') => .ok (q, h')
      | (none, h') => .error (.oom, h')

/-- `alloc::deallocate::<T>(ptr, cap)`: zero-sized `T` is a no-op;
otherwise the region's size is recomputed unchecked and the memory is
returned to the host allocator. -/
def deallocate (sz align p cap : Nat) (h : Heap β) : Heap β :=
  if sz = 0 then h
  else h.hostFree p (unchecked_allocation_size sz cap) align

end alloc

/-- `MemBuf<T>`: a pointer (`buffer`) paired with an element capacity
(`cap`). -/
structure MemBuf where
  buffer : Nat
  cap : Nat
deriving DecidableEq

/-- `MemBuf::new()`: capacity 0, sentinel pointer, no host interaction. -/
def MemBuf.new : MemBuf :=
  { buffer := alloc.empty, cap := 0 }

/-- `MemBuf::capacity()`. -/
def MemBuf.capacity (b : MemBuf) : Nat := b.cap

/-- `MemBuf::allocate(cap)`: capacity 0 is routed to `new`; otherwise the
raw `alloc::allocate` is called and its pointer stored with `cap`. -/
def MemBuf.allocate (sz align cap : Nat) (h : Heap β) (ok : Bool) :
    Except (Fault × Heap β) (MemBuf × Heap β) :=
  if cap = 0 then .ok (MemBuf.new, h)
  else
    match alloc.allocate sz align cap h ok with
    | .error e => .error e
    | .ok (p, h') => .ok ({ buffer := p, cap := cap }, h')

/-- `MemBuf::reallocate(cap)`.  On the `self.cap == 0 || cap == 0` branch
`*self = MemBuf::allocate(cap)`; if that allocation panics the assignment
never happens, so the error carries the unchanged handle.  On the other
branch `self.cap` is replaced by 0 and `self.buffer` by the sentinel
before `alloc::reallocate` runs, so the error there carries the emptied
handle, which is what the unwinder sees. -/
def MemBuf.reallocate (sz align : Nat) (b : MemBuf) (cap : Nat)
    (h : Heap β) (ok : Bool) :
    Except (Fault × MemBuf × Heap β) (MemBuf × Heap β) :=
  if b.cap = 0 ∨ cap = 0 then
    match MemBuf.allocate sz align cap h ok with
    | .error (f, h') => .error (f, b, h')
    | .ok (b', h') => .ok (b', h')
  else
    match alloc.reallocate sz align b.buffer b.cap cap h ok with
    | .error (f, h') => .error (f, { buffer := alloc.empty, cap := 0 }, h')
    | .ok (p, h') => .ok ({ buffer := p, cap := cap }, h')

/-- `MemBuf::deallocate(self)`: capacity 0 is a no-op; otherwise the raw
`alloc::deallocate` runs with the stored pointer and capacity. -/
def MemBuf.deallocate (sz align : Nat) (b : MemBuf) (h : Heap β) : Heap β :=
  if b.cap = 0 then h
  else alloc.deallocate sz align b.buffer b.cap h

/-- `MemBuf::from_raw(data, capacity)`: stores both fields verbatim. -/
def MemBuf.from_raw (data capacity : Nat) : MemBuf :=
  { buffer := data, cap := capacity }

/-- `UniqueBuf<T>`: wraps exactly one `MemBuf<T>`. -/
structure UniqueBuf where
  inner : MemBuf
deriving DecidableEq

/-- `UniqueBuf::new()`. -/
def UniqueBuf.new : UniqueBuf :=
  { inner := MemBuf.new }

/-- `UniqueBuf::allocate(cap)`: forwards to `MemBuf::allocate`. -/
def UniqueBuf.allocate (sz align cap : Nat) (h : Heap β) (ok : Bool) :
    Except (Fault × Heap β) (UniqueBuf × Heap β) :=
  match MemBuf.allocate sz align cap h ok with
  | .error e => .error e
  | .ok (b, h') => .ok ({ inner := b }, h')

/-- `UniqueBuf::reallocate(cap)`: forwards to `MemBuf::reallocate` on the
wrapped handle. -/
def UniqueBuf.reallocate (sz align : Nat) (u : UniqueBuf) (cap : Nat)
    (h : Heap β) (ok : Bool) :
    Except (Fault × UniqueBuf × Heap β) (UniqueBuf × Heap β) :=
  match MemBuf.reallocate sz align u.inner cap h ok with
  | .error (f, b', h') => .error (f, { inner := b' }, h')
  | .ok (b', h') => .ok ({ inner := b' }, h')

/-- `UniqueBuf::capacity()`: forwards to `MemBuf::capacity`. -/
def UniqueBuf.capacity (u : UniqueBuf) : Nat :=
  u.inner.capacity

/-- `UniqueBuf::from_raw(buffer)`: wraps the given `MemBuf` verbatim. -/
def UniqueBuf.from_raw (b : MemBuf) : UniqueBuf :=
  { inner := b }

/-- `Drop for UniqueBuf`: `self.inner.deallocate()`. -/
def UniqueBuf.drop (sz align : Nat) (u : UniqueBuf) (h : Heap β) : Heap β :=
  MemBuf.deallocate sz align u.inner h

/-- `ptr::write(buffer.offset(i), v)`: write the `sz`-byte representation
`v` of an element at element offset `i`. -/
def writeElem (sz : Nat) (h : Heap β) (p i : Nat) (v : List β) : Heap β :=
  h.writeBytes p (i * sz) v

/-- `ptr::read(buffer.offset(i))`: read the `sz` bytes at element offset
`i`. -/
def readElem (sz : Nat) (h : Heap β) (p i : Nat) :
    Option (List (Option β)) :=
  h.readBytes p (i * sz) sz

/-- A sequence of element writes `(offset, value)`, performed in order. -/
def writeAll (sz : Nat) (h : Heap β) (p : Nat) (ws : List (Nat × List β)) :
    Heap β :=
  ws.foldl (fun acc w => writeElem sz acc p w.1 w.2) h

end Membuf

/-! ## Normal forms of the operations -/

namespace Membuf

variable {β : Type}

/-- `alloc::allocate` written out by cases: zero-sized short-circuit,
capacity-overflow panic before any host call, successful host allocation,
out-of-memory panic after a null return. -/
theorem alloc.allocate_cases (sz align cap : Nat) (h : Heap β) (ok : Bool) :
    alloc.allocate sz align cap h ok =
      if sz = 0 then .ok (EMPTY, h)
      else if usizeSize ≤ sz * cap then .error (.capacityOverflow, h)
      else if ok then
        .ok (h.next,
          ⟨⟨h.next, sz * cap, List.replicate (sz * cap) none⟩ :: h.blocks,
            h.next + sz * cap + 1, h.events ++ [.alloc (sz * cap) align]⟩)
      else .error (.oom, { h with events := h.events ++ [.alloc (sz * cap) align] }) := by
  unfold alloc.allocate alloc.allocation_size checked_mul Heap.hostAlloc alloc.empty
  by_cases h1 : sz = 0
  · simp [h1]
  · rw [if_neg h1, if_neg h1]
    by_cases h2 : sz * cap < usizeSize
    · rw [if_pos h2, if_neg (by omega : ¬ usizeSize ≤ sz * cap)]
      cases ok <;> simp
    · rw [if_neg h2, if_pos (by omega : usizeSize ≤ sz * cap)]

/-- `alloc::reallocate` written out by cases.  Note the fault conditions
mention only `sz * new_cap`: the old capacity's size is computed
unchecked. -/
theorem alloc.reallocate_cases (sz align p old_cap new_cap : Nat) (h : Heap β) (ok : Bool) :
    alloc.reallocate sz align p old_cap new_cap h ok =
      if sz = 0 then .ok (EMPTY, h)
      else if usizeSize ≤ sz * new_cap then .error (.capacityOverflow, h)
      else
        match h.findBlock p, ok with
        | some blk, true =>
          .ok (h.next,
            ⟨⟨h.next, sz * new_cap, resizeData (sz * new_cap) blk.data⟩
                :: h.blocks.filter (fun b => b.addr != p),
              h.next + sz * new_cap + 1,
              h.events ++ [.realloc (sz * old_cap % usizeSize) (sz * new_cap) align]⟩)
        | _, _ =>
          .error (.oom,
            { h with events :=
                h.events ++ [.realloc (sz * old_cap % usizeSize) (sz * new_cap) align] }) := by
  unfold alloc.reallocate alloc.allocation_size alloc.unchecked_allocation_size checked_mul
    Heap.hostRealloc alloc.empty
  by_cases h1 : sz = 0
  · simp [h1]
  · rw [if_neg h1, if_neg h1]
    by_cases h2 : sz * new_cap < usizeSize
    · rw [if_pos h2, if_neg (by omega : ¬ usizeSize ≤ sz * new_cap)]
      cases hf : h.findBlock p <;> cases ok <;> simp
    · rw [if_neg h2, if_pos (by omega : usizeSize ≤ sz * new_cap)]

/-- `MemBuf::allocate` written out by cases. -/
theorem MemBuf.allocate_eq (sz align cap : Nat) (h : Heap β) (ok : Bool) :
    MemBuf.allocate sz align cap h ok =
      if cap = 0 then .ok (MemBuf.new, h)
      else if sz = 0 then .ok (⟨EMPTY, cap⟩, h)
      else if usizeSize ≤ sz * cap then .error (.capacityOverflow, h)
      else if ok then
        .ok (⟨h.next, cap⟩,
          ⟨⟨h.next, sz * cap, List.replicate (sz * cap) none⟩ :: h.blocks,
            h.next + sz * cap + 1, h.events ++ [.alloc (sz * cap) align]⟩)
      else .error (.oom, { h with events := h.events ++ [.alloc (sz * cap) align] }) := by
  unfold MemBuf.allocate
  rw [alloc.allocate_cases]
  by_cases h0 : cap = 0
  · simp [h0]
  · rw [if_neg h0, if_neg h0]
    by_cases h1 : sz = 0
    · simp [h1]
    · rw [if_neg h1, if_neg h1]
      by_cases h2 : usizeSize ≤ sz * cap
      · simp [h2]
      · rw [if_neg h2, if_neg h2]
        cases ok <;> simp

/-- `MemBuf::reallocate` written out by cases.  The error values carry the
handle as the unwinder would see it: unchanged on the
`self.cap == 0 || cap == 0` branch, emptied (capacity 0, sentinel)
on the branch that calls `alloc::reallocate`. -/
theorem MemBuf.reallocate_eq (sz align : Nat) (b : MemBuf) (cap : Nat) (h : Heap β) (ok : Bool) :
    MemBuf.reallocate sz align b cap h ok =
      if cap = 0 then .ok (MemBuf.new, h)
      else if b.cap = 0 then
        (if sz = 0 then .ok (⟨EMPTY, cap⟩, h)
         else if usizeSize ≤ sz * cap then .error (.capacityOverflow, b, h)
         else if ok then
           .ok (⟨h.next, cap⟩,
             ⟨⟨h.next, sz * cap, List.replicate (sz * cap) none⟩ :: h.blocks,
               h.next + sz * cap + 1, h.events ++ [.alloc (sz * cap) align]⟩)
         else .error (.oom, b, { h with events := h.events ++ [.alloc (sz * cap) align] }))
      else
        (if sz = 0 then .ok (⟨EMPTY, cap⟩, h)
         else if usizeSize ≤ sz * cap then .error (.capacityOverflow, ⟨EMPTY, 0⟩, h)
         else
           match h.findBlock b.buffer, ok with
           | some blk, true =>
             .ok (⟨h.next, cap⟩,
               ⟨⟨h.next, sz * cap, resizeData (sz * cap) blk.data⟩
                   :: h.blocks.filter (fun x => x.addr != b.buffer),
                 h.next + sz * cap + 1,
                 h.events ++ [.realloc (sz * b.cap % usizeSize) (sz * cap) align]⟩)
           | _, _ =>
             .error (.oom, ⟨EMPTY, 0⟩,
               { h with events :=
                   h.events ++ [.realloc (sz * b.cap % usizeSize) (sz * cap) align] })) := by
  unfold MemBuf.reallocate
  by_cases hc : cap = 0
  · rw [if_pos (Or.inr hc), MemBuf.allocate_eq, if_pos hc, if_pos hc]
  · rw [if_neg hc]
    by_cases hb : b.cap = 0
    · rw [if_pos (Or.inl hb), if_pos hb, MemBuf.allocate_eq, if_neg hc]
      by_cases h1 : sz = 0
      · simp [h1]
      · rw [if_neg h1, if_neg h1]
        by_cases h2 : usizeSize ≤ sz * cap
        · simp [h2]
        · rw [if_neg h2, if_neg h2]
          cases ok <;> simp
    · rw [if_neg (by simp [hb, hc]), if_neg hb, alloc.reallocate_cases]
      by_cases h1 : sz = 0
      · simp [h1, alloc.empty]
      · rw [if_neg h1, if_neg h1]
        by_cases h2 : usizeSize ≤ sz * cap
        · simp [h2, alloc.empty]
        · rw [if_neg h2, if_neg h2]
          cases hf : h.findBlock b.buffer <;> cases ok <;> simp [alloc.empty]

end Membuf

/-! ## Claim theorems -/

namespace Membuf

/-- `usize` has positive range. -/
theorem usize_pos : 0 < usizeSize := by decide

/-- C1 (code bug evidence): with 8-byte elements, `MemBuf::allocate(1)`
creates one live block of 8 bytes and logs one host `alloc` call;
`reallocate(0)` on that handle then returns the emptied handle
(capacity 0, sentinel pointer) but leaves the heap completely unchanged:
the old block stays live and no host `free` call is logged.  The old
region is leaked, not freed — `*self = MemBuf::allocate(cap)` overwrites
a `Copy` type with no destructor. -/
theorem C1_realloc_to_zero_leaks :
    MemBuf.allocate 8 8 1 (⟨[], 2, []⟩ : Heap Nat) true
      = .ok (⟨2, 1⟩, ⟨[⟨2, 8, List.replicate 8 none⟩], 11, [.alloc 8 8]⟩) ∧
    MemBuf.reallocate 8 8 ⟨2, 1⟩ 0
        (⟨[⟨2, 8, List.replicate 8 none⟩], 11, [.alloc 8 8]⟩ : Heap Nat) true
      = .ok (⟨EMPTY, 0⟩, ⟨[⟨2, 8, List.replicate 8 none⟩], 11, [.alloc 8 8]⟩) := by
  exact ⟨by decide, by decide⟩

/-- C2: `alloc::allocate` and `alloc::reallocate` raise the
capacity-overflow fault exactly when `element_size * new_capacity`
overflows `usize`, and they raise it with the heap untouched (no
host-allocator call was made); `reallocate`'s fault condition does not
mention the old capacity (its size is computed unchecked); a null return
from the host raises the out-of-memory fault instead, after the host
call was logged.  (Both faults are panics, modelled as `Except.error`;
the functions return no recoverable error type.) -/
theorem C2_fault_conditions (β : Type) (sz align cap p old_cap : Nat)
    (h : Heap β) (ok : Bool) :
    ((∃ h' : Heap β, alloc.allocate sz align cap h ok = .error (.capacityOverflow, h')) ↔
        usizeSize ≤ sz * cap) ∧
    (usizeSize ≤ sz * cap →
        alloc.allocate sz align cap h ok = .error (.capacityOverflow, h)) ∧
    ((∃ h' : Heap β, alloc.reallocate sz align p old_cap cap h ok =
        .error (.capacityOverflow, h')) ↔ usizeSize ≤ sz * cap) ∧
    (usizeSize ≤ sz * cap →
        alloc.reallocate sz align p old_cap cap h ok = .error (.capacityOverflow, h)) ∧
    ((∃ h' : Heap β, alloc.allocate sz align cap h ok = .error (.oom, h')) ↔
        sz ≠ 0 ∧ sz * cap < usizeSize ∧ ok = false) ∧
    ((∃ h' : Heap β, alloc.reallocate sz align p old_cap cap h ok = .error (.oom, h')) ↔
        sz ≠ 0 ∧ sz * cap < usizeSize ∧ (ok = false ∨ h.findBlock p = none)) ∧
    (sz ≠ 0 → sz * cap < usizeSize → ok = false →
        alloc.allocate sz align cap h ok =
          .error (.oom, { h with events := h.events ++ [.alloc (sz * cap) align] })) := by
  have hu : 0 < usizeSize := usize_pos
  refine ⟨?_, ?_, ?_, ?_, ?_, ?_, ?_⟩
  · rw [alloc.allocate_cases]
    split_ifs with h1 h2 h3 <;> simp_all
    omega
  · intro hov
    rw [alloc.allocate_cases, if_neg (fun h1 => by subst h1; simp at hov; omega), if_pos hov]
  · rw [alloc.reallocate_cases]
    split_ifs with h1 h2
    all_goals try (cases hf : h.findBlock p <;> cases ok)
    all_goals simp_all
    all_goals omega
  · intro hov
    rw [alloc.reallocate_cases, if_neg (fun h1 => by subst h1; simp at hov; omega), if_pos hov]
  · rw [alloc.allocate_cases]
    split_ifs with h1 h2 h3 <;> simp_all
  · rw [alloc.reallocate_cases]
    split_ifs with h1 h2
    all_goals try (cases hf : h.findBlock p <;> cases ok)
    all_goals simp_all
  · intro h1 h2 h3
    rw [alloc.allocate_cases, if_neg h1, if_neg (by omega), h3]
    rfl

/-- C3: when `MemBuf::reallocate(new_cap)` with current capacity `> 0`
and `new_cap > 0` raises either fault, the unwinding handle has capacity
0 and the sentinel pointer (they were replaced before the raw
`reallocate` call), so a later `deallocate` is a no-op on the heap. -/
theorem C3_realloc_fault_empties (β : Type) (sz align : Nat) (b : MemBuf)
    (cap : Nat) (h : Heap β) (ok : Bool) (f : Fault) (b' : MemBuf) (h' : Heap β)
    (hb : 0 < b.cap) (hc : 0 < cap)
    (he : MemBuf.reallocate sz align b cap h ok = .error (f, b', h')) :
    b' = ⟨EMPTY, 0⟩ ∧ b'.capacity = 0 ∧ b'.buffer = EMPTY ∧
    (∀ h₂ : Heap β, MemBuf.deallocate sz align b' h₂ = h₂) := by
  rw [MemBuf.reallocate_eq, if_neg (by omega), if_neg (by omega)] at he
  have hb' : b' = ⟨EMPTY, 0⟩ := by
    split_ifs at he with h1 h2
    · simp only [Except.error.injEq, Prod.mk.injEq] at he
      exact he.2.1.symm
    · cases hf : h.findBlock b.buffer <;> rw [hf] at he <;> cases ok <;> simp_all
  subst hb'
  exact ⟨rfl, rfl, rfl, fun h₂ => by simp [MemBuf.deallocate]⟩

/-- C3 witness: a concrete faulting reallocation (capacity 1 to 1,
element size 1, host returns null) leaves the handle with capacity 0. -/
theorem C3_realloc_fault_empties_witness :
    ({ buffer := EMPTY, cap := 0 } : MemBuf).capacity = 0 :=
  (C3_realloc_fault_empties Nat 1 1 ⟨2, 1⟩ 1 ⟨[], 2, []⟩ false .oom ⟨EMPTY, 0⟩
    ⟨[], 2, [.realloc 1 1 1]⟩ (by decide) (by decide) (by decide)).2.1

/-- C4: a successful `MemBuf::allocate(cap)` returns a handle whose
`capacity()` is `cap`; for `cap == 0` the result is exactly
`MemBuf::new()` with the sentinel pointer and an untouched heap (no host
interaction, no events); `MemBuf::new()` itself has capacity 0 and the
sentinel pointer. -/
theorem C4_allocate_capacity (β : Type) (sz align cap : Nat) (h : Heap β)
    (ok : Bool) (b : MemBuf) (h' : Heap β)
    (hs : MemBuf.allocate sz align cap h ok = .ok (b, h')) :
    b.capacity = cap ∧
    (cap = 0 → b = MemBuf.new ∧ b.buffer = EMPTY ∧ h' = h) ∧
    MemBuf.new.capacity = 0 ∧ MemBuf.new.buffer = EMPTY := by
  rw [MemBuf.allocate_eq] at hs
  split_ifs at hs with h0 h1 h2 h3 <;>
      simp only [Except.ok.injEq, Prod.mk.injEq, reduceCtorEq] at hs
  · obtain ⟨rfl, rfl⟩ := hs
    exact ⟨by simp [MemBuf.capacity, MemBuf.new, h0], fun _ => ⟨rfl, rfl, rfl⟩, rfl, rfl⟩
  · obtain ⟨rfl, rfl⟩ := hs
    exact ⟨rfl, fun hc => absurd hc h0, rfl, rfl⟩
  · obtain ⟨rfl, rfl⟩ := hs
    exact ⟨rfl, fun hc => absurd hc h0, rfl, rfl⟩

/-- C4 witness: `allocate(0)` over 8-byte elements on a concrete heap. -/
theorem C4_allocate_capacity_witness :
    MemBuf.new.capacity = 0 ∧ MemBuf.new.buffer = EMPTY :=
  (C4_allocate_capacity Nat 8 8 0 ⟨[], 2, []⟩ true MemBuf.new ⟨[], 2, []⟩
    (by decide)).2.2

/-- C5: over a zero-sized element type, `allocate(cap)` for every `cap`
(however large) succeeds with capacity `cap` and the sentinel pointer and
leaves the heap untouched — no host call, no fault; `reallocate` and
`deallocate` likewise never touch the heap. -/
theorem C5_zst_no_host_call (β : Type) (align cap : Nat) (h : Heap β)
    (ok : Bool) (b : MemBuf) :
    MemBuf.allocate 0 align cap h ok = .ok (⟨EMPTY, cap⟩, h) ∧
    MemBuf.reallocate 0 align b cap h ok = .ok (⟨EMPTY, cap⟩, h) ∧
    MemBuf.deallocate 0 align b h = h := by
  refine ⟨?_, ?_, ?_⟩
  · rw [MemBuf.allocate_eq]
    by_cases h0 : cap = 0
    · simp [h0, MemBuf.new, alloc.empty]
    · simp [h0]
  · rw [MemBuf.reallocate_eq]
    by_cases h0 : cap = 0
    · simp [h0, MemBuf.new, alloc.empty]
    · by_cases hb : b.cap = 0 <;> simp [h0, hb]
  · unfold MemBuf.deallocate alloc.deallocate
    by_cases hb : b.cap = 0 <;> simp [hb]

/-- The handle-state invariant of the data model: capacity 0 means the
sentinel pointer; positive capacity means either a zero-sized element
type with the sentinel, or a live host block sized for exactly `cap`
elements. -/
def Invariant (sz : Nat) (b : MemBuf) (h : Heap β) : Prop :=
  (b.cap = 0 → b.buffer = EMPTY) ∧
  (0 < b.cap →
    (sz = 0 ∧ b.buffer = EMPTY) ∨
    (0 < sz ∧ ∃ blk ∈ h.blocks, blk.addr = b.buffer ∧ blk.size = sz * b.cap))

/-- Handle states reachable through `new`, `allocate` and `reallocate`
(successful or unwinding), together with the heap they evolve. -/
inductive Reach {β : Type} (sz align : Nat) : MemBuf → Heap β → Prop where
  | new (h : Heap β) : Reach sz align MemBuf.new h
  | alloc (cap : Nat) (h : Heap β) (ok : Bool) (b : MemBuf) (h' : Heap β)
      (hs : MemBuf.allocate sz align cap h ok = .ok (b, h')) : Reach sz align b h'
  | realloc_ok (b : MemBuf) (h : Heap β) (cap : Nat) (ok : Bool) (b' : MemBuf) (h' : Heap β)
      (hr : Reach sz align b h)
      (hs : MemBuf.reallocate sz align b cap h ok = .ok (b', h')) : Reach sz align b' h'
  | realloc_err (b : MemBuf) (h : Heap β) (cap : Nat) (ok : Bool) (f : Fault)
      (b' : MemBuf) (h' : Heap β) (hr : Reach sz align b h)
      (hs : MemBuf.reallocate sz align b cap h ok = .error (f, b', h')) :
      Reach sz align b' h'

/-- `MemBuf::new()` satisfies the invariant in any heap. -/
theorem invariant_new (sz : Nat) (h : Heap β) : Invariant sz MemBuf.new h :=
  ⟨fun _ => rfl, fun hpos => absurd hpos (by simp [MemBuf.new])⟩

/-- A successful `MemBuf::allocate` establishes the invariant. -/
theorem invariant_of_allocate {sz align cap : Nat} {h : Heap β} {ok : Bool}
    {b : MemBuf} {h' : Heap β}
    (hs : MemBuf.allocate sz align cap h ok = .ok (b, h')) : Invariant sz b h' := by
  rw [MemBuf.allocate_eq] at hs
  split_ifs at hs with h0 h1 h2 h3 <;>
      simp only [Except.ok.injEq, Prod.mk.injEq, reduceCtorEq] at hs
  · obtain ⟨rfl, rfl⟩ := hs
    exact invariant_new sz h
  · obtain ⟨rfl, rfl⟩ := hs
    exact ⟨fun hc => rfl, fun _ => Or.inl ⟨h1, rfl⟩⟩
  · obtain ⟨rfl, rfl⟩ := hs
    refine ⟨fun hc => absurd hc h0, fun _ => Or.inr ⟨by omega, ?_⟩⟩
    exact ⟨⟨h.next, sz * cap, List.replicate (sz * cap) none⟩, by simp, rfl, rfl⟩

/-- C6: every handle state reachable through `new`, `allocate` and
`reallocate` (including fault unwinds) satisfies the invariant:
capacity 0 implies the sentinel pointer; positive capacity implies a
live host block of exactly `size_of * capacity` bytes, or the sentinel
for a zero-sized element type. -/
theorem C6_reachable_invariant (β : Type) (sz align : Nat) (b : MemBuf) (h : Heap β)
    (hr : Reach sz align b h) : Invariant sz b h := by
  induction hr with
  | new h => exact invariant_new sz h
  | alloc cap h ok b h' hs => exact invariant_of_allocate hs
  | realloc_ok b h cap ok b' h' hr hs ih =>
    rw [MemBuf.reallocate_eq] at hs
    by_cases hc : cap = 0
    · rw [if_pos hc] at hs
      simp only [Except.ok.injEq, Prod.mk.injEq] at hs
      obtain ⟨rfl, rfl⟩ := hs
      exact invariant_new sz h
    · rw [if_neg hc] at hs
      by_cases hb : b.cap = 0
      · rw [if_pos hb] at hs
        split_ifs at hs with h1 h2 h3 <;>
            simp only [Except.ok.injEq, Prod.mk.injEq, reduceCtorEq] at hs
        · obtain ⟨rfl, rfl⟩ := hs
          exact ⟨fun hcc => rfl, fun _ => Or.inl ⟨h1, rfl⟩⟩
        · obtain ⟨rfl, rfl⟩ := hs
          refine ⟨fun hcc => absurd hcc hc, fun _ => Or.inr ⟨by omega, ?_⟩⟩
          exact ⟨⟨h.next, sz * cap, List.replicate (sz * cap) none⟩, by simp, rfl, rfl⟩
      · rw [if_neg hb] at hs
        split_ifs at hs with h1 h2 <;> try
            simp only [Except.ok.injEq, Prod.mk.injEq, reduceCtorEq] at hs
        · obtain ⟨rfl, rfl⟩ := hs
          exact ⟨fun hcc => rfl, fun _ => Or.inl ⟨h1, rfl⟩⟩
        · rcases hf : h.findBlock b.buffer with _ | blk
          · rw [hf] at hs; cases ok <;> simp at hs
          · rw [hf] at hs
            cases ok
            · simp at hs
            · simp only [Except.ok.injEq, Prod.mk.injEq] at hs
              obtain ⟨rfl, rfl⟩ := hs
              refine ⟨fun hcc => absurd hcc hc, fun _ => Or.inr ⟨by omega, ?_⟩⟩
              exact ⟨⟨h.next, sz * cap, resizeData (sz * cap) blk.data⟩, by simp, rfl, rfl⟩
  | realloc_err b h cap ok f b' h' hr hs ih =>
    rw [MemBuf.reallocate_eq] at hs
    by_cases hc : cap = 0
    · rw [if_pos hc] at hs; simp at hs
    · rw [if_neg hc] at hs
      by_cases hb : b.cap = 0
      · rw [if_pos hb] at hs
        split_ifs at hs with h1 h2 h3 <;>
            simp only [Except.error.injEq, Prod.mk.injEq, reduceCtorEq] at hs
        · obtain ⟨rfl, rfl, rfl⟩ := hs
          exact ih
        · obtain ⟨rfl, rfl, rfl⟩ := hs
          exact ⟨ih.1, fun hpos => by
            rcases ih.2 hpos with hl | ⟨hszpos, blk, hmem, ha, hsz2⟩
            · exact Or.inl hl
            · exact Or.inr ⟨hszpos, blk, hmem, ha, hsz2⟩⟩
      · rw [if_neg hb] at hs
        split_ifs at hs with h1 h2 <;> try
            simp only [Except.error.injEq, Prod.mk.injEq, reduceCtorEq] at hs
        · obtain ⟨rfl, rfl, rfl⟩ := hs
          exact ⟨fun _ => rfl, fun hpos => absurd hpos (by simp)⟩
        · cases hf : h.findBlock b.buffer <;> rw [hf] at hs <;> cases ok <;>
              simp only [Except.error.injEq, Prod.mk.injEq, reduceCtorEq] at hs <;>
            obtain ⟨rfl, rfl, rfl⟩ := hs <;>
            exact ⟨fun _ => rfl, fun hpos => absurd hpos (by simp)⟩

/-- C6 witness: the handle freshly allocated for one 8-byte element
satisfies the invariant in the heap that allocation produced. -/
theorem C6_reachable_invariant_witness :
    Invariant 8 ⟨2, 1⟩ (⟨[⟨2, 8, List.replicate 8 none⟩], 11, [.alloc 8 8]⟩ : Heap Nat) :=
  C6_reachable_invariant Nat 8 8 ⟨2, 1⟩ ⟨[⟨2, 8, List.replicate 8 none⟩], 11, [.alloc 8 8]⟩
    (Reach.alloc 1 ⟨[], 2, []⟩ true ⟨2, 1⟩ _ (by decide))

/-- C7: dropping a `UniqueBuf` over a non-zero-sized element type with
capacity `c > 0` performs exactly one host free, of the region at the
stored pointer sized `size_of * c` bytes, leaving every other block, the
address counter and the prior event log intact; dropping with capacity 0
is the identity on the heap (no host call). -/
theorem C7_unique_drop_frees (β : Type) (sz align : Nat) (u : UniqueBuf) (h : Heap β)
    (hsz : 0 < sz) (hbound : sz * u.inner.cap < usizeSize) :
    (u.inner.cap = 0 → UniqueBuf.drop sz align u h = h) ∧
    (0 < u.inner.cap →
      UniqueBuf.drop sz align u h =
        ⟨h.blocks.filter (fun x => x.addr != u.inner.buffer), h.next,
          h.events ++ [.free u.inner.buffer (sz * u.inner.cap) align]⟩) := by
  unfold UniqueBuf.drop MemBuf.deallocate alloc.deallocate alloc.unchecked_allocation_size
    Heap.hostFree
  constructor
  · intro h0; rw [if_pos h0]
  · intro h0
    rw [if_neg (by omega), if_neg (by omega), Nat.mod_eq_of_lt hbound]

/-- C7 witness: dropping a unique handle holding one 4-byte element frees
its block and logs exactly one `free` of 4 bytes. -/
theorem C7_unique_drop_frees_witness :
    UniqueBuf.drop 4 4 ⟨⟨2, 1⟩⟩ (⟨[⟨2, 4, List.replicate 4 none⟩], 7, []⟩ : Heap Nat)
      = ⟨[], 7, [.free 2 4 4]⟩ :=
  ((C7_unique_drop_frees Nat 4 4 ⟨⟨2, 1⟩⟩ ⟨[⟨2, 4, List.replicate 4 none⟩], 7, []⟩
    (by decide) (by decide)).2 (by decide)).trans (by decide)

/-- C9: every `UniqueBuf` operation observably forwards to the `MemBuf`
operation on the wrapped handle: same resulting capacity and pointer,
same faults, same heap (hence the same host-allocator interaction), for
every input capacity. -/
theorem C9_unique_forwards (β : Type) (sz align cap : Nat) (h : Heap β)
    (ok : Bool) (u : UniqueBuf) (b : MemBuf) (h' : Heap β) (f : Fault) :
    UniqueBuf.new.inner = MemBuf.new ∧
    UniqueBuf.capacity u = u.inner.capacity ∧
    (UniqueBuf.allocate sz align cap h ok = .ok (⟨b⟩, h') ↔
      MemBuf.allocate sz align cap h ok = .ok (b, h')) ∧
    (UniqueBuf.allocate sz align cap h ok = .error (f, h') ↔
      MemBuf.allocate sz align cap h ok = .error (f, h')) ∧
    (UniqueBuf.reallocate sz align u cap h ok = .ok (⟨b⟩, h') ↔
      MemBuf.reallocate sz align u.inner cap h ok = .ok (b, h')) ∧
    (UniqueBuf.reallocate sz align u cap h ok = .error (f, ⟨b⟩, h') ↔
      MemBuf.reallocate sz align u.inner cap h ok = .error (f, b, h')) := by
  refine ⟨rfl, rfl, ?_, ?_, ?_, ?_⟩
  · unfold UniqueBuf.allocate
    cases hm : MemBuf.allocate sz align cap h ok with
    | error e => simp
    | ok o => obtain ⟨b₀, h₀⟩ := o; simp [UniqueBuf.mk.injEq]
  · unfold UniqueBuf.allocate
    cases hm : MemBuf.allocate sz align cap h ok with
    | error e => obtain ⟨f₀, h₀⟩ := e; simp
    | ok o => obtain ⟨b₀, h₀⟩ := o; simp
  · unfold UniqueBuf.reallocate
    cases hm : MemBuf.reallocate sz align u.inner cap h ok with
    | error e => obtain ⟨f₀, b₀, h₀⟩ := e; simp
    | ok o => obtain ⟨b₀, h₀⟩ := o; simp [UniqueBuf.mk.injEq]
  · unfold UniqueBuf.reallocate
    cases hm : MemBuf.reallocate sz align u.inner cap h ok with
    | error e => obtain ⟨f₀, b₀, h₀⟩ := e; simp [UniqueBuf.mk.injEq]
    | ok o => obtain ⟨b₀, h₀⟩ := o; simp

/-- C10: `MemBuf::from_raw(p, c)` (and `UniqueBuf::from_raw`) stores its
arguments verbatim — no validation, no host-allocator interaction (the
function does not touch a heap at all); in particular capacity 0 with a
non-sentinel pointer is accepted, so `from_raw` does not establish the
capacity-0-implies-sentinel invariant. -/
theorem C10_from_raw_verbatim :
    (∀ data capacity : Nat,
      MemBuf.from_raw data capacity = { buffer := data, cap := capacity } ∧
      (MemBuf.from_raw data capacity).capacity = capacity ∧
      (MemBuf.from_raw data capacity).buffer = data) ∧
    (∀ b : MemBuf, (UniqueBuf.from_raw b).inner = b) ∧
    (MemBuf.from_raw (EMPTY + 1) 0).cap = 0 ∧
    (MemBuf.from_raw (EMPTY + 1) 0).buffer ≠ EMPTY := by
  exact ⟨fun d c => ⟨rfl, rfl, rfl⟩, fun b => rfl, rfl, by decide⟩

end Membuf

/-! ## Round-trip reads and writes (C8) -/

namespace Membuf

variable {β : Type}

/-- The `len` bytes of `l` starting at offset `off`. -/
def readRange {α : Type} (l : List α) (off len : Nat) : List α :=
  (l.drop off).take len

/-- Reading inside the left part of an append. -/
theorem readRange_append_left {α : Type} (a b : List α) (off len : Nat)
    (hb : off + len ≤ a.length) :
    readRange (a ++ b) off len = readRange a off len := by
  unfold readRange
  rw [List.drop_append_of_le_length (by omega),
    List.take_append_of_le_length (by rw [List.length_drop]; omega)]

/-- Reading inside a prefix. -/
theorem readRange_take {α : Type} (l : List α) (n off len : Nat)
    (hb : off + len ≤ n) :
    readRange (l.take n) off len = readRange l off len := by
  unfold readRange
  rw [List.drop_take, List.take_take, Nat.min_eq_left (by omega)]

/-- Reading past the left part of an append. -/
theorem readRange_append_right {α : Type} (a b : List α) (off k len : Nat)
    (hoff : off = a.length + k) :
    readRange (a ++ b) off len = readRange b k len := by
  unfold readRange
  rw [hoff, List.drop_append_eq_append_drop, List.drop_eq_nil_of_le (by omega),
    Nat.add_sub_cancel_left, List.nil_append]

/-- An in-bounds `overwrite` keeps the length. -/
theorem length_overwrite (l : List (Option β)) (off : Nat) (bytes : List β)
    (hb : off + bytes.length ≤ l.length) :
    (overwrite l off bytes).length = l.length := by
  unfold overwrite
  simp only [List.length_append, List.length_take, List.length_drop, List.length_map]
  omega

/-- Reading back exactly the overwritten range. -/
theorem readRange_overwrite_self (l : List (Option β)) (off : Nat) (bytes : List β)
    (hb : off + bytes.length ≤ l.length) :
    readRange (overwrite l off bytes) off bytes.length = bytes.map some := by
  unfold overwrite
  rw [List.append_assoc,
    readRange_append_right _ _ _ 0 _ (by simp [List.length_take]; omega)]
  unfold readRange
  rw [List.drop_zero, List.take_append_of_le_length (by simp),
    List.take_of_length_le (by simp)]

/-- Reading strictly before the overwritten range. -/
theorem readRange_overwrite_left (l : List (Option β)) (off : Nat) (bytes : List β)
    (off' len : Nat) (h1 : off' + len ≤ off) (h2 : off ≤ l.length) :
    readRange (overwrite l off bytes) off' len = readRange l off' len := by
  unfold overwrite
  rw [List.append_assoc,
    readRange_append_left _ _ _ _ (by simp [List.length_take]; omega),
    readRange_take _ _ _ _ h1]

/-- Reading strictly after the overwritten range. -/
theorem readRange_overwrite_right (l : List (Option β)) (off : Nat) (bytes : List β)
    (off' len : Nat) (h1 : off + bytes.length ≤ off') (h2 : off ≤ l.length) :
    readRange (overwrite l off bytes) off' len = readRange l off' len := by
  unfold overwrite
  rw [readRange_append_right (l.take off ++ bytes.map some) _ _
      (off' - (off + bytes.length)) _
      (by simp [List.length_take]; omega)]
  unfold readRange
  rw [List.drop_drop]
  congr 2
  omega

/-- `resizeData` produces exactly `n` bytes. -/
theorem length_resizeData (n : Nat) (l : List (Option β)) :
    (resizeData n l).length = n := by
  simp only [resizeData, List.length_append, List.length_take, List.length_replicate]
  omega

/-- Reading a range preserved by the host's grow/shrink. -/
theorem readRange_resizeData (l : List (Option β)) (n off len : Nat)
    (h1 : off + len ≤ n) (h2 : off + len ≤ l.length) :
    readRange (resizeData n l) off len = readRange l off len := by
  unfold resizeData
  rw [readRange_append_left _ _ _ _ (by simp [List.length_take]; omega),
    readRange_take _ _ _ _ h1]

/-- Element `i` of a buffer of `cap` elements lies within `sz * cap` bytes. -/
theorem elem_off_le (sz : Nat) {i cap : Nat} (hi : i < cap) : i * sz + sz ≤ sz * cap := by
  have h1 : (i + 1) * sz ≤ cap * sz := Nat.mul_le_mul_right sz (by omega)
  calc i * sz + sz = (i + 1) * sz := by ring
    _ ≤ cap * sz := h1
    _ = sz * cap := Nat.mul_comm cap sz

/-- The heap's block list begins with the handle's block: at address `p`,
sized `sz * cap` bytes with contents of that length. -/
def WState (sz cap p : Nat) (h : Heap β) : Prop :=
  ∃ blk rest, h.blocks = blk :: rest ∧ blk.addr = p ∧ blk.size = sz * cap ∧
    blk.data.length = sz * cap

/-- Looking up the head block. -/
theorem findBlock_cons_self {p : Nat} (h : Heap β) (blk : Block β)
    (rest : List (Block β)) (hb : h.blocks = blk :: rest) (hp : blk.addr = p) :
    h.findBlock p = some blk := by
  unfold Heap.findBlock
  rw [hb]
  exact List.find?_cons_of_pos _ (by simp [hp])

/-- An in-bounds element read on a heap headed by the handle's block. -/
theorem readElem_head (sz cap p i : Nat) (h : Heap β) (blk : Block β)
    (rest : List (Block β)) (hb : h.blocks = blk :: rest) (hp : blk.addr = p)
    (hsize : blk.size = sz * cap) (hi : i < cap) :
    readElem sz h p i = some (readRange blk.data (i * sz) sz) := by
  unfold readElem Heap.readBytes
  rw [findBlock_cons_self h blk rest hb hp]
  simp only [hsize, readRange]
  rw [if_pos (elem_off_le sz hi)]

/-- An element write keeps the handle's block at the head. -/
theorem writeElem_head (sz : Nat) (h : Heap β) (p i : Nat) (v : List β)
    (blk : Block β) (rest : List (Block β)) (hb : h.blocks = blk :: rest)
    (hp : blk.addr = p) :
    (writeElem sz h p i v).blocks
      = blk.write (i * sz) v
        :: rest.map (fun x => if x.addr == p then x.write (i * sz) v else x) := by
  unfold writeElem Heap.writeBytes
  rw [hb]
  simp [hp]

/-- An in-bounds element write preserves the head-block shape. -/
theorem WState_writeElem (sz cap p i : Nat) (v : List β) (h : Heap β)
    (hw : WState sz cap p h) (hi : i < cap) (hv : v.length = sz) :
    WState sz cap p (writeElem sz h p i v) := by
  obtain ⟨blk, rest, hb, hp, hsize, hlen⟩ := hw
  refine ⟨blk.write (i * sz) v, _, writeElem_head sz h p i v blk rest hb hp, hp, hsize, ?_⟩
  unfold Block.write
  simp only []
  rw [length_overwrite _ _ _ (by rw [hlen, hv]; exact elem_off_le sz hi), hlen]

/-- Reading an element back right after writing it. -/
theorem readElem_writeElem_self (sz cap p i : Nat) (v : List β) (h : Heap β)
    (hw : WState sz cap p h) (hi : i < cap) (hv : v.length = sz) :
    readElem sz (writeElem sz h p i v) p i = some (v.map some) := by
  obtain ⟨blk, rest, hb, hp, hsize, hlen⟩ := hw
  rw [readElem_head sz cap p i _ (blk.write (i * sz) v) _
      (writeElem_head sz h p i v blk rest hb hp) hp hsize hi]
  unfold Block.write
  simp only []
  have hself := readRange_overwrite_self blk.data (i * sz) v
    (by rw [hlen, hv]; exact elem_off_le sz hi)
  rw [hv] at hself
  rw [hself]

/-- A write to one element leaves every other element's bytes alone. -/
theorem readElem_writeElem_ne (sz cap p i j : Nat) (v : List β) (h : Heap β)
    (hw : WState sz cap p h) (hi : i < cap) (hj : j < cap) (hne : i ≠ j)
    (hv : v.length = sz) :
    readElem sz (writeElem sz h p i v) p j = readElem sz h p j := by
  obtain ⟨blk, rest, hb, hp, hsize, hlen⟩ := hw
  rw [readElem_head sz cap p j _ (blk.write (i * sz) v) _
      (writeElem_head sz h p i v blk rest hb hp) hp hsize hj,
    readElem_head sz cap p j h blk rest hb hp hsize hj]
  unfold Block.write
  simp only []
  congr 1
  rcases Nat.lt_or_ge j i with hlt | hge
  · exact readRange_overwrite_left blk.data (i * sz) v (j * sz) sz
      (by have hd := elem_off_le sz hlt; rw [Nat.mul_comm sz i] at hd; omega)
      (by have hd := elem_off_le sz hi; omega)
  · have hij : i < j := by omega
    exact readRange_overwrite_right blk.data (i * sz) v (j * sz) sz
      (by rw [hv]; have hd := elem_off_le sz hij; rw [Nat.mul_comm sz j] at hd; omega)
      (by have hd := elem_off_le sz hi; omega)

theorem writeAll_nil (sz : Nat) (h : Heap β) (p : Nat) :
    writeAll sz h p [] = h := rfl

theorem writeAll_cons (sz : Nat) (h : Heap β) (p : Nat) (w : Nat × List β)
    (ws : List (Nat × List β)) :
    writeAll sz h p (w :: ws) = writeAll sz (writeElem sz h p w.1 w.2) p ws := rfl

/-- A sequence of in-bounds element writes preserves the head-block shape. -/
theorem WState_writeAll (sz cap p : Nat) (ws : List (Nat × List β)) (h : Heap β)
    (hw : WState sz cap p h)
    (hws : ∀ w ∈ ws, w.1 < cap ∧ w.2.length = sz) :
    WState sz cap p (writeAll sz h p ws) := by
  induction ws generalizing h with
  | nil => exact hw
  | cons w ws ih =>
    rw [writeAll_cons]
    exact ih (writeElem sz h p w.1 w.2)
      (WState_writeElem sz cap p w.1 w.2 h hw (hws w (by simp)).1 (hws w (by simp)).2)
      (fun w' hm => hws w' (by simp [hm]))

/-- Writes that all avoid element `i` leave its bytes alone. -/
theorem readElem_writeAll_ne (sz cap p i : Nat) (ws : List (Nat × List β)) (h : Heap β)
    (hw : WState sz cap p h)
    (hws : ∀ w ∈ ws, w.1 < cap ∧ w.2.length = sz ∧ w.1 ≠ i) (hi : i < cap) :
    readElem sz (writeAll sz h p ws) p i = readElem sz h p i := by
  induction ws generalizing h with
  | nil => rfl
  | cons w ws ih =>
    rw [writeAll_cons]
    rw [ih (writeElem sz h p w.1 w.2)
      (WState_writeElem sz cap p w.1 w.2 h hw (hws w (by simp)).1 (hws w (by simp)).2.1)
      (fun w' hm => hws w' (by simp [hm]))]
    exact readElem_writeElem_ne sz cap p w.1 i w.2 h hw (hws w (by simp)).1 hi
      (hws w (by simp)).2.2 (hws w (by simp)).2.1

/-- After a sequence of writes at pairwise-distinct in-bounds offsets,
each offset reads back the value written there. -/
theorem readElem_writeAll_mem (sz cap p : Nat) (ws : List (Nat × List β)) (h : Heap β)
    (i : Nat) (v : List β) (hw : WState sz cap p h)
    (hws : ∀ w ∈ ws, w.1 < cap ∧ w.2.length = sz)
    (hnd : (ws.map Prod.fst).Nodup) (hmem : (i, v) ∈ ws) :
    readElem sz (writeAll sz h p ws) p i = some (v.map some) := by
  induction ws generalizing h with
  | nil => cases hmem
  | cons w ws ih =>
    rw [writeAll_cons]
    have hhead := hws w (by simp)
    rw [List.map_cons] at hnd
    have hnd' := List.nodup_cons.mp hnd
    rcases List.mem_cons.mp hmem with heq | hmem'
    · have hw1 : w.1 = i := by rw [← heq]
      have hv2 : w.2 = v := by rw [← heq]
      subst hw1
      subst hv2
      rw [readElem_writeAll_ne sz cap p w.1 ws (writeElem sz h p w.1 w.2)
        (WState_writeElem sz cap p w.1 w.2 h hw hhead.1 hhead.2)
        (fun w' hm => ⟨(hws w' (by simp [hm])).1, (hws w' (by simp [hm])).2,
          fun hc => hnd'.1 (by rw [← hc]; exact List.mem_map_of_mem Prod.fst hm)⟩)
        hhead.1]
      exact readElem_writeElem_self sz cap p w.1 w.2 h hw hhead.1 hhead.2
    · exact ih (writeElem sz h p w.1 w.2)
        (WState_writeElem sz cap p w.1 w.2 h hw hhead.1 hhead.2)
        (fun w' hm => hws w' (by simp [hm])) hnd'.2 hmem'

/-- A successful non-trivial `MemBuf::allocate` yields a heap headed by
exactly the handle's block. -/
theorem WState_of_allocate {sz align cap : Nat} {h : Heap β} {ok : Bool}
    {b : MemBuf} {h' : Heap β} (hsz : sz ≠ 0) (hc : cap ≠ 0)
    (hs : MemBuf.allocate sz align cap h ok = .ok (b, h')) :
    WState sz cap b.buffer h' ∧ b.cap = cap := by
  rw [MemBuf.allocate_eq, if_neg hc, if_neg hsz] at hs
  by_cases h2 : usizeSize ≤ sz * cap
  · rw [if_pos h2] at hs; exact absurd hs (by simp)
  · rw [if_neg h2] at hs
    cases ok
    · simp at hs
    · rw [if_pos rfl] at hs
      simp only [Except.ok.injEq, Prod.mk.injEq] at hs
      obtain ⟨rfl, rfl⟩ := hs
      exact ⟨⟨⟨h.next, sz * cap, List.replicate (sz * cap) none⟩, h.blocks, rfl, rfl, rfl,
        by simp⟩, rfl⟩

/-- A successful non-trivial `MemBuf::reallocate` moves the found block's
(resized) contents to a fresh head block. -/
theorem realloc_ok_head {sz align cap₂ : Nat} {b : MemBuf} {h : Heap β} {ok : Bool}
    {b' : MemBuf} {h' : Heap β}
    (hb : 0 < b.cap) (hc : 0 < cap₂) (hsz : sz ≠ 0)
    (hs : MemBuf.reallocate sz align b cap₂ h ok = .ok (b', h')) :
    ∃ blk, h.findBlock b.buffer = some blk ∧ b' = ⟨h.next, cap₂⟩ ∧
      h'.blocks = ⟨h.next, sz * cap₂, resizeData (sz * cap₂) blk.data⟩
        :: h.blocks.filter (fun x => x.addr != b.buffer) := by
  rw [MemBuf.reallocate_eq, if_neg (by omega), if_neg (by omega), if_neg hsz] at hs
  by_cases h2 : usizeSize ≤ sz * cap₂
  · rw [if_pos h2] at hs; exact absurd hs (by simp)
  · rw [if_neg h2] at hs
    rcases hf : h.findBlock b.buffer with _ | blk <;> rw [hf] at hs
    · cases ok <;> simp at hs
    · cases ok
      · simp at hs
      · simp only [Except.ok.injEq, Prod.mk.injEq] at hs
        obtain ⟨rfl, rfl⟩ := hs
        exact ⟨blk, rfl, rfl, rfl⟩

/-- C8: on a freshly allocated buffer of capacity `a` (non-zero-sized
elements), a sequence of element writes at pairwise-distinct offsets
below `a` reads back each written value; and after a successful
`reallocate` to capacity `b`, every written offset below `min(a, b)`
(below `a` by hypothesis, below `b` explicitly) still reads back the same
value through the relocated pointer. -/
theorem C8_roundtrip (β : Type) (sz align a bcap : Nat) (h : Heap β)
    (ok₁ ok₂ : Bool) (ws : List (Nat × List β)) (buf buf' : MemBuf) (h₁ h₂ : Heap β)
    (hsz : 0 < sz)
    (ha : MemBuf.allocate sz align a h ok₁ = .ok (buf, h₁))
    (hws : ∀ w ∈ ws, w.1 < a ∧ w.2.length = sz)
    (hnd : (ws.map Prod.fst).Nodup)
    (hb : MemBuf.reallocate sz align buf bcap (writeAll sz h₁ buf.buffer ws) ok₂
        = .ok (buf', h₂)) :
    (∀ w ∈ ws, readElem sz (writeAll sz h₁ buf.buffer ws) buf.buffer w.1
        = some (w.2.map some)) ∧
    (∀ w ∈ ws, w.1 < bcap →
        readElem sz h₂ buf'.buffer w.1 = some (w.2.map some)) := by
  rcases Nat.eq_zero_or_pos a with ha0 | hapos
  · subst ha0
    exact ⟨fun w hm => absurd (hws w hm).1 (by omega),
      fun w hm _ => absurd (hws w hm).1 (by omega)⟩
  · obtain ⟨hW, hcap⟩ := WState_of_allocate (by omega) (by omega) ha
    have hfst : ∀ w ∈ ws, readElem sz (writeAll sz h₁ buf.buffer ws) buf.buffer w.1
        = some (w.2.map some) := by
      intro w hm
      exact readElem_writeAll_mem sz a buf.buffer ws h₁ w.1 w.2 hW hws hnd
        (by simpa using hm)
    refine ⟨hfst, ?_⟩
    intro w hm hlt
    rcases Nat.eq_zero_or_pos bcap with hb0 | hbpos
    · omega
    · have hW' := WState_writeAll sz a buf.buffer ws h₁ hW hws
      obtain ⟨blk, hfind, rfl, hblocks⟩ := realloc_ok_head (by omega) hbpos (by omega) hb
      obtain ⟨blk₁, rest₁, hhb, hhp, hhsize, hhlen⟩ := hW'
      have hbe : blk = blk₁ := by
        have hh := findBlock_cons_self (writeAll sz h₁ buf.buffer ws) blk₁ rest₁ hhb hhp
        rw [hfind] at hh
        exact Option.some_inj.mp hh
      subst hbe
      have h2' := readElem_head sz a buf.buffer w.1 (writeAll sz h₁ buf.buffer ws)
        blk rest₁ hhb hhp hhsize (hws w hm).1
      have h1 := readElem_head sz bcap (writeAll sz h₁ buf.buffer ws).next w.1 h₂
        ⟨(writeAll sz h₁ buf.buffer ws).next, sz * bcap, resizeData (sz * bcap) blk.data⟩
        ((writeAll sz h₁ buf.buffer ws).blocks.filter (fun x => x.addr != buf.buffer))
        hblocks rfl rfl hlt
      show readElem sz h₂ (writeAll sz h₁ buf.buffer ws).next w.1 = some (w.2.map some)
      rw [h1]
      show some (readRange (resizeData (sz * bcap) blk.data) (w.1 * sz) sz) = _
      rw [readRange_resizeData blk.data (sz * bcap) (w.1 * sz) sz (elem_off_le sz hlt)
        (by rw [hhlen]; exact elem_off_le sz (hws w hm).1)]
      exact h2'.symm.trans (hfst w hm)

/-- C8 witness: allocate capacity 2 (1-byte elements), write 5 at offset
0 and 7 at offset 1, reallocate to capacity 3; offset 0 still reads back
5 through the relocated pointer. -/
theorem C8_roundtrip_witness :
    readElem 1 (⟨[⟨5, 3, [some 5, some 7, none]⟩], 9,
        [.alloc 2 1, .realloc 2 3 1]⟩ : Heap Nat) 5 0 = some [some 5] :=
  (C8_roundtrip Nat 1 1 2 3 ⟨[], 2, []⟩ true true [(0, [5]), (1, [7])] ⟨2, 2⟩ ⟨5, 3⟩
      ⟨[⟨2, 2, [none, none]⟩], 5, [.alloc 2 1]⟩
      ⟨[⟨5, 3, [some 5, some 7, none]⟩], 9, [.alloc 2 1, .realloc 2 3 1]⟩
      (by decide) (by decide) (by decide) (by decide) (by decide)).2
    (0, [5]) (by decide) (by decide)

end Membuf
